import Mathlib

/-! TActionView (src/tactionview.cpp): a verification development.

Shallow embedding of `TActionView::renderReact`, `TActionView::renderPartial`,
`TActionView::echo` and `TActionView::eh`.

* `QString` is a list of characters, `QDateTime` an optional instant (`none` is the
  invalid date-time).
* The two function-local statics of `renderReact` are explicit state: the map
  `reactComponents` is threaded through the call, the mutex is observed through the
  `lock` / `unlock` events of the call's trace.
* Everything the function asks of its surroundings (file metadata, directory listing,
  clock, the platform's directory separator, the render capability of a component) is
  an explicit parameter, queried exactly where the source queries it.
-/

namespace TActionView

/-! ## Data model -/

/-- QString: a sequence of characters. -/
abbrev QString := List Char

/-- QDateTime as returned by `QFileInfo::lastModified()`: `none` is the invalid
date-time (`isValid()` is false), `some t` is the valid instant `t`. -/
abbrev QDateTime := Option Nat

/-- Modelled from the spec: the class `TReactComponent` (the spec's Render Artifact) is
declared outside src/tactionview.cpp. Per the spec an artifact carries its source path
and the timestamp at which it was built, both fixed once constructed; its render
capability is the platform function `Platform.renderToString` applied to it. -/
structure TReactComponent where
  /-- Value of `filePath()`: the path handed to the constructor. -/
  filePath : QString
  /-- Value of `loadedDateTime()`: the clock reading at construction. -/
  loadedDateTime : Nat
deriving DecidableEq, Repr

/-- The process-wide collaborators of `renderReact` that do not change between calls. -/
structure Platform where
  /-- Value of `QDir::separator()`: the native directory separator. -/
  separator : Char
  /-- Value of `Tf::app()->publicPath()`. -/
  publicPath : QString
  /-- Result of `QDir(path).absolutePath()`. -/
  absolutePath : QString → QString
  /-- Result of `TReactComponent::renderToString(component)` on a live artifact. -/
  renderToString : TReactComponent → QString → QString

/-- What the filesystem and the clock answer during one call. Each of the three is
queried at most once per call of `renderReact`. -/
structure World where
  /-- Answer of `QFileInfo(path).lastModified()`. -/
  lastModified : QString → QDateTime
  /-- Answer of `QDir(dir).entryList(filters, QDir::Files)`: file names, in listing order. -/
  entryList : QString → List QString → List QString
  /-- Answer of `QDateTime::currentDateTime()`, read by the artifact constructor. -/
  currentDateTime : Nat
  /-- A directory listing never contains an empty file name. -/
  entryList_ne : ∀ d f x, x ∈ entryList d f → x ≠ []

/-- The static `QMap<QString, TReactComponent*> reactComponents`: a finite map with
unique keys, observed only through `value`. -/
structure QMap where
  entries : List (QString × TReactComponent)
deriving DecidableEq, Repr

/-- Lookup in an association list; `none` is the null pointer `QMap::value` returns for
an absent key. -/
def lookupEntries : List (QString × TReactComponent) → QString → Option TReactComponent
  | [], _ => none
  | (k, v) :: rest, key => if k = key then some v else lookupEntries rest key

/-- Removal of every item with the given key. -/
def removeEntries : List (QString × TReactComponent) → QString → List (QString × TReactComponent)
  | [], _ => []
  | (k, v) :: rest, key =>
    if k = key then removeEntries rest key else (k, v) :: removeEntries rest key

/-- The call `reactComponents.value(key)`. -/
def QMap.value (m : QMap) (key : QString) : Option TReactComponent :=
  lookupEntries m.entries key

/-- The call `reactComponents.remove(key)`. -/
def QMap.remove (m : QMap) (key : QString) : QMap :=
  ⟨removeEntries m.entries key⟩

/-- The call `reactComponents.insert(key, value)`: an existing item with the key is replaced. -/
def QMap.insert (m : QMap) (key : QString) (v : TReactComponent) : QMap :=
  ⟨(key, v) :: removeEntries m.entries key⟩

/-- The observable operations of one `renderReact` call, in program order. -/
inductive Event where
  /-- Mutex acquired: `QMutexLocker locker(&mutex)` or `locker.relock()`. -/
  | lock
  /-- Mutex released: `locker.unlock()` or the locker's destructor. -/
  | unlock
  /-- Cache lookup `reactComponents.value(key)`. -/
  | value (key : QString)
  /-- Metadata query `QFileInfo(path).lastModified()`. -/
  | lastModified (path : QString)
  /-- Cache removal `reactComponents.remove(key)`. -/
  | remove (key : QString)
  /-- Destruction `delete react`. -/
  | delete (react : TReactComponent)
  /-- Directory listing `dir.entryList(filter, QDir::Files)`. -/
  | entryList (dir : QString) (filters : List QString)
  /-- Artifact construction `new TReactComponent(path)`. -/
  | construct (path : QString)
  /-- Cache insertion `reactComponents.insert(key, react)`. -/
  | insert (key : QString) (react : TReactComponent)
  /-- Render invocation `react->renderToString(component)`. -/
  | renderToString (react : TReactComponent) (component : QString)
deriving DecidableEq, Repr

/-- State of one running call: the shared map, whether the call's `QMutexLocker`
currently holds the mutex, and the events performed so far. -/
structure Machine where
  reactComponents : QMap
  held : Bool
  trace : List Event

/-- Result of one call: returned string, the map afterwards, the call's events. -/
structure Outcome where
  output : QString
  reactComponents : QMap
  trace : List Event

/-! ## Primitive steps -/

/-- Record an event. -/
def Machine.emit (m : Machine) (e : Event) : Machine :=
  { m with trace := m.trace ++ [e] }

/-- Step `QMutexLocker locker(&mutex)` and `locker.relock()`. -/
def Machine.lock (m : Machine) : Machine :=
  { m with held := true, trace := m.trace ++ [Event.lock] }

/-- Step `locker.unlock()`. -/
def Machine.unlock (m : Machine) : Machine :=
  { m with held := false, trace := m.trace ++ [Event.unlock] }

/-- Destructor of the `QMutexLocker` at a return: releases the mutex if still held. -/
def Machine.destroyLocker (m : Machine) : Machine :=
  if m.held then m.unlock else m

/-- Step `reactComponents.value(key)`. -/
def Machine.value (m : Machine) (key : QString) : Option TReactComponent × Machine :=
  (m.reactComponents.value key, m.emit (Event.value key))

/-- Step `QFileInfo(path).lastModified()`. -/
def Machine.lastModified (m : Machine) (w : World) (path : QString) : QDateTime × Machine :=
  (w.lastModified path, m.emit (Event.lastModified path))

/-- Step `reactComponents.remove(key)`. -/
def Machine.remove (m : Machine) (key : QString) : Machine :=
  { m with reactComponents := m.reactComponents.remove key,
           trace := m.trace ++ [Event.remove key] }

/-- Step `delete react`. -/
def Machine.delete (m : Machine) (react : TReactComponent) : Machine :=
  m.emit (Event.delete react)

/-- Step `dir.entryList(filter, QDir::Files)`. -/
def Machine.entryList (m : Machine) (w : World) (dir : QString) (filters : List QString) :
    List QString × Machine :=
  (w.entryList dir filters, m.emit (Event.entryList dir filters))

/-- Modelled from the spec: the constructor `TReactComponent(path)` is outside
src/tactionview.cpp; per the spec (§4.2) `build(sourcePath)` yields an artifact for
that path with `loadedAt := now()` and touches no shared cache state. -/
def Machine.construct (m : Machine) (w : World) (path : QString) : TReactComponent × Machine :=
  (⟨path, w.currentDateTime⟩, m.emit (Event.construct path))

/-- Step `reactComponents.insert(key, react)`. -/
def Machine.insert (m : Machine) (key : QString) (react : TReactComponent) : Machine :=
  { m with reactComponents := m.reactComponents.insert key react,
           trace := m.trace ++ [Event.insert key react] }

/-- Step `react->renderToString(component)`. -/
def Machine.renderToString (m : Machine) (p : Platform) (react : TReactComponent)
    (component : QString) : QString × Machine :=
  (p.renderToString react component, m.emit (Event.renderToString react component))

/-! ## renderReact -/

/-- The staleness test of line 71: `!modified.isValid() || modified > react->loadedDateTime()`. -/
def isStale (modified : QDateTime) (loaded : Nat) : Bool :=
  match modified with
  | none => true
  | some t => decide (t > loaded)

/-- The directory of line 81:
`Tf::app()->publicPath() + "js" + QDir::separator() + "components"`. -/
def componentsPath (p : Platform) : QString :=
  p.publicPath ++ "js".toList ++ [p.separator] ++ "components".toList

/-- The name filter of line 82: `{ component + ".*" }`. -/
def nameFilter (component : QString) : List QString :=
  [component ++ ".*".toList]

/-- The constructor argument of line 86: `dir.absolutePath() + QDir::separator() + file`. -/
def componentFile (p : Platform) (file : QString) : QString :=
  p.absolutePath (componentsPath p) ++ [p.separator] ++ file

/-- Lines 66-78: under the mutex, look the component up and evict it when stale.
Returns the local pointer `react` (`none` is the null pointer). -/
def guardedLookup (w : World) (component : QString) (m : Machine) :
    Option TReactComponent × Machine :=
  let m := m.lock
  let (react, m) := m.value component
  let (react, m) :=
    match react with
    | some r =>
      let (modified, m) := m.lastModified w r.filePath
      if isStale modified r.loadedDateTime then
        let m := m.remove component
        let m := m.delete r
        (none, m)
      else
        (some r, m)
    | none => (none, m)
  (react, m.unlock)

/-- Lines 80-93, entered when `react` is null: scan the directory, build and publish.
Returns the new `react`; `none` is the early `return QString()` of line 91. -/
def discover (p : Platform) (w : World) (component : QString) (m : Machine) :
    Option TReactComponent × Machine :=
  let (files, m) := m.entryList w (componentsPath p) (nameFilter component)
  let file := files.getD 0 []
  if !file.isEmpty then
    let (r, m) := m.construct w (componentFile p file)
    let m := m.lock
    let m := m.insert component r
    let m := m.unlock
    (some r, m)
  else
    (none, m)

/-- Lines 57-95 on a running machine. -/
def renderReactBody (p : Platform) (w : World) (component : QString) (m : Machine) :
    QString × Machine :=
  if component.isEmpty then
    ([], m)
  else
    let (react, m) := guardedLookup w component m
    let (react, m) :=
      match react with
      | none => discover p w component m
      | some r => (some r, m)
    match react with
    | none => ([], m.destroyLocker)
    | some r =>
      let (out, m) := m.renderToString p r component
      (out, m.destroyLocker)

/-- The call `renderReact(component)` on the map `cache`. -/
def renderReact (p : Platform) (w : World) (component : QString) (cache : QMap) : Outcome :=
  let r := renderReactBody p w component ⟨cache, false, []⟩
  ⟨r.1, r.2.reactComponents, r.2.trace⟩

/-- Successive calls `renderReact(component)`, one per world, each on the map the
previous call left. -/
def renderReactSeq (p : Platform) (component : QString) : List World → QMap → List Outcome
  | [], _ => []
  | w :: ws, cache =>
    renderReact p w component cache ::
      renderReactSeq p component ws (renderReact p w component cache).reactComponents

/-! ## Monitors over a call's trace -/

/-- Number of artifacts constructed in a trace. -/
def builds : List Event → Nat
  | [] => 0
  | Event.construct _ :: es => builds es + 1
  | _ :: es => builds es

/-- Number of directory listings in a trace. -/
def scans : List Event → Nat
  | [] => 0
  | Event.entryList _ _ :: es => scans es + 1
  | _ :: es => scans es

/-- Number of render invocations in a trace. -/
def renders : List Event → Nat
  | [] => 0
  | Event.renderToString _ _ :: es => renders es + 1
  | _ :: es => renders es

/-- One step of the guard monitor. The argument is whether the mutex is held before the
event; the result is whether it is held afterwards, or `none` when the event breaks the
discipline: acquiring a held mutex, releasing a free one, touching the map
(`value`, `remove`, `insert`) without the mutex, or listing the directory, constructing
an artifact or rendering while holding it. -/
def guardStep (held : Bool) : Event → Option Bool
  | Event.lock => if held then none else some true
  | Event.unlock => if held then some false else none
  | Event.value _ => if held then some true else none
  | Event.remove _ => if held then some true else none
  | Event.insert _ _ => if held then some true else none
  | Event.entryList _ _ => if held then none else some false
  | Event.construct _ => if held then none else some false
  | Event.renderToString _ _ => if held then none else some false
  | Event.lastModified _ => some held
  | Event.delete _ => some held

/-- Run the guard monitor over a trace. -/
def guardRun (held : Bool) : List Event → Option Bool
  | [] => some held
  | e :: es =>
    match guardStep held e with
    | none => none
    | some h => guardRun h es

/-- A trace respects the guard discipline when the monitor, started with the mutex
free, accepts every event and ends with the mutex free. -/
def disciplined (tr : List Event) : Bool :=
  guardRun false tr == some false

/-! ## View-layer glue -/

/-- QVariantMap: the variable bindings handed through to the controller untouched. -/
abbrev QVariantMap := List (QString × QString)

/-- The controller capability used by `renderPartial`:
`TActionController::getRenderingData(templateName, vars)`. -/
structure TActionController where
  getRenderingData : QString → QVariantMap → QString

/-- The fields of a `TActionView` the functions below use. -/
structure View where
  /-- Pointer `actionController`; `none` is the null pointer. -/
  actionController : Option TActionController
  /-- The response accumulation buffer `responsebody`. -/
  responsebody : QString

/-- Lines 44-51: `TActionView::renderPartial`. -/
def renderPartial (p : Platform) (v : View) (templateName : QString) (vars : QVariantMap) :
    QString :=
  let temp := templateName
  let temp :=
    if !temp.contains '/' then "partial".toList ++ [p.separator] ++ temp else temp
  match v.actionController with
  | some c => c.getRenderingData temp vars
  | none => []

/-- The test `QChar::isSpace()`: tab to carriage return, space, NEL, no-break space and
the Unicode separators (categories Zs, Zl, Zp). -/
def isSpace (c : Char) : Bool :=
  let u := c.toNat
  u == 0x20 || (0x09 ≤ u && u ≤ 0x0d) || u == 0x85 || u == 0xa0 || u == 0x1680 ||
    (0x2000 ≤ u && u ≤ 0x200a) || u == 0x2028 || u == 0x2029 || u == 0x202f ||
    u == 0x205f || u == 0x3000

/-- The call `QString::trimmed()`: whitespace removed from the start and the end. -/
def trimmed (s : QString) : QString :=
  (s.dropWhile isSpace).rdropWhile isSpace

/-- Modelled from the spec: `THttpUtility::htmlEscape` is outside src/tactionview.cpp;
the spec says only that it HTML-escapes its text, turning `<b>` into `&lt;b&gt;`. This
is the replacement of one character: the markup characters become entities. -/
def escapeChar (c : Char) : QString :=
  if c = '&' then "&amp;".toList
  else if c = '<' then "&lt;".toList
  else if c = '>' then "&gt;".toList
  else if c = '"' then "&quot;".toList
  else if c = Char.ofNat 39 then "&#039;".toList
  else [c]

/-- Modelled from the spec: `THttpUtility::htmlEscape` (outside src/tactionview.cpp),
the character-wise HTML escaping of a text. -/
def htmlEscape : QString → QString
  | [] => []
  | c :: cs => escapeChar c ++ htmlEscape cs

/-- Lines 109-113: `TActionView::echo(const THtmlAttribute &attr)`; the argument is the
text `attr.toString()`. Returns the returned string and the view afterwards. -/
def echo (v : View) (attrText : QString) : QString × View :=
  ([], { v with responsebody := v.responsebody ++ trimmed attrText })

/-- Modelled from the spec: the overload `TActionView::echo(const QString &str)` is
declared outside src/tactionview.cpp; per the spec `echo(text)` appends trimmed `text`
to the response accumulation buffer and returns an empty string. -/
def echoQString (v : View) (str : QString) : QString × View :=
  ([], { v with responsebody := v.responsebody ++ trimmed str })

/-- Lines 119-122: `TActionView::eh(const THtmlAttribute &attr)`; the argument is the
text `attr.toString()`. -/
def eh (v : View) (attrText : QString) : QString × View :=
  echoQString v (htmlEscape (trimmed attrText))

/-- A text with no whitespace at either end. -/
def Trimmed (l : QString) : Prop :=
  (∀ c, l.head? = some c → isSpace c = false) ∧ (∀ c, l.getLast? = some c → isSpace c = false)

/-! ## Concrete platforms, worlds and views used at the evaluation points -/

/-- A Unix platform: separator `/`; rendering an artifact shows the component name and
the artifact's source path. -/
def unixPlatform : Platform :=
  ⟨'/', "/srv/public/".toList, id,
    fun r c => "<div>".toList ++ c ++ "@".toList ++ r.filePath ++ "</div>".toList⟩

/-- A Windows platform: the native separator is the backslash. -/
def windowsPlatform : Platform :=
  ⟨Char.ofNat 92, "C:/srv/public/".toList, id,
    fun r c => "<div>".toList ++ c ++ "@".toList ++ r.filePath ++ "</div>".toList⟩

/-- A world in which every path has modification time `mtime`, every listing answers
`files` (empty names left out) and the clock reads `now`. -/
def mkWorld (mtime : QDateTime) (files : List QString) (now : Nat) : World :=
  ⟨fun _ => mtime, fun _ _ => files.filter (fun f => !f.isEmpty), now, by
    intro d f x hx
    simp only [List.mem_filter] at hx
    intro h
    rw [h] at hx
    simp at hx⟩

/-- The source path of the component `Hello` on the Unix platform. -/
def helloPath : QString := "/srv/public/js/components/Hello.js".toList

/-- A controller that answers the template name it was asked to render. -/
def nameController : TActionController := ⟨fun t _ => t⟩

/-- The component name used at the evaluation points. -/
def hello : QString := "Hello".toList

/-- The artifact built for `Hello` at clock reading 10. -/
def helloArtifact : TReactComponent := ⟨helloPath, 10⟩

/-- The map after the first `renderReact("Hello")` of a process: the file `Hello.js` is
listed and the clock reads 10. -/
def helloCache : QMap :=
  (renderReact unixPlatform (mkWorld (some 5) ["Hello.js".toList] 10) hello ⟨[]⟩).reactComponents

/-! ## Concurrent calls

Several threads run `renderReact(component)` against the shared map. A call gives
up the processor only where it does not hold the mutex: before line 66, after line 78
and before line 94. Between these points a call runs one of the three phases
`guardedLookup`, `discover`, `renderToString`, exactly as in the sequential function. -/

/-- Where one call stands between its phases. -/
inductive Progress where
  /-- Called, nothing executed yet (line 57). -/
  | entered
  /-- Past line 78 or line 93 with the local pointer `react`. -/
  | looked (react : Option TReactComponent)
  /-- Returned with this string. -/
  | returned (output : QString)
deriving DecidableEq, Repr

/-- Run the next phase of one call on the shared machine. -/
def stepCall (p : Platform) (w : World) (component : QString) (pr : Progress) (m : Machine) :
    Progress × Machine :=
  match pr with
  | Progress.entered =>
    if component.isEmpty then
      (Progress.returned [], m)
    else
      let (react, m) := guardedLookup w component m
      (Progress.looked react, m)
  | Progress.looked none =>
    let (react, m) := discover p w component m
    match react with
    | some r => (Progress.looked (some r), m)
    | none => (Progress.returned [], m.destroyLocker)
  | Progress.looked (some r) =>
    let (out, m) := m.renderToString p r component
    (Progress.returned out, m.destroyLocker)
  | Progress.returned out => (Progress.returned out, m)

/-- The shared machine and the progress of every thread's call. -/
structure System where
  shared : Machine
  calls : List Progress

/-- Thread `i` runs its next phase in the world `w`. -/
def System.step (p : Platform) (component : QString) (s : System) (i : Nat) (w : World) :
    System :=
  match s.calls.get? i with
  | none => s
  | some pr =>
    let r := stepCall p w component pr s.shared
    ⟨r.2, s.calls.set i r.1⟩

/-- Run a schedule: which thread runs next, and what the world answers meanwhile. -/
def System.run (p : Platform) (component : QString) : System → List (Nat × World) → System
  | s, [] => s
  | s, (i, w) :: rest => System.run p component (s.step p component i w) rest

/-- Whether a trace invokes `renderToString` on an artifact after its `delete`. The
first argument lists the artifacts deleted so far; an artifact published again by a
later `insert` is a new object and counts as live. -/
def rendersDeleted : List TReactComponent → List Event → Bool
  | _, [] => false
  | dead, Event.delete r :: es => rendersDeleted (r :: dead) es
  | dead, Event.insert _ r :: es => rendersDeleted (dead.filter (fun d => d ≠ r)) es
  | dead, Event.renderToString r _ :: es => dead.contains r || rendersDeleted dead es
  | dead, _ :: es => rendersDeleted dead es

/-- Two threads call `renderReact("Hello")` at once on an empty map while `Hello.js`,
which exists throughout, is saved again (modification time 5, then 15). Thread 0 looks
up (miss) and publishes the artifact loaded at 10; thread 1 gets the mutex next, finds
that artifact older than the file and deletes it; thread 0 then renders the pointer it
still holds; thread 1 publishes the artifact loaded at 20 and renders it. -/
def stampedeSchedule : List (Nat × World) :=
  [(0, mkWorld (some 5) ["Hello.js".toList] 10),
   (0, mkWorld (some 5) ["Hello.js".toList] 10),
   (1, mkWorld (some 15) ["Hello.js".toList] 20),
   (0, mkWorld (some 15) ["Hello.js".toList] 20),
   (1, mkWorld (some 15) ["Hello.js".toList] 20),
   (1, mkWorld (some 15) ["Hello.js".toList] 20)]

/-- The system after the stampede schedule. -/
def stampede : System :=
  System.run unixPlatform hello ⟨⟨⟨[]⟩, false, []⟩, [Progress.entered, Progress.entered]⟩
    stampedeSchedule

/-- The same two calls and the same interleaving while `Hello.js` stays as it was
(modification time 5 throughout). -/
def calmSchedule : List (Nat × World) :=
  [(0, mkWorld (some 5) ["Hello.js".toList] 10),
   (0, mkWorld (some 5) ["Hello.js".toList] 10),
   (1, mkWorld (some 5) ["Hello.js".toList] 20),
   (0, mkWorld (some 5) ["Hello.js".toList] 20),
   (1, mkWorld (some 5) ["Hello.js".toList] 20),
   (1, mkWorld (some 5) ["Hello.js".toList] 20)]

/-! ## Lemmas: trimming and escaping -/

theorem trimmed_isTrimmed (s : QString) : Trimmed (trimmed s) := by
  constructor
  · intro c hc
    have hpre : trimmed s <+: s.dropWhile isSpace := List.rdropWhile_prefix isSpace _
    obtain ⟨t, ht⟩ := hpre
    have hne : trimmed s ≠ [] := by
      intro h
      rw [h] at hc
      simp at hc
    have hd : (s.dropWhile isSpace).head? = some c := by
      rw [← ht, List.head?_append_of_ne_nil _ hne]
      exact hc
    have := List.head?_dropWhile_not isSpace s
    rw [hd] at this
    simpa using this
  · intro c hc
    have hne : trimmed s ≠ [] := by
      intro h
      rw [h] at hc
      simp at hc
    have h1 := List.rdropWhile_last_not isSpace (s.dropWhile isSpace) hne
    rw [List.getLast?_eq_getLast _ hne] at hc
    have : (trimmed s).getLast hne = c := by simpa using hc
    rw [← this]
    simpa [trimmed] using h1

theorem trimmed_of_isTrimmed (l : QString) (h : Trimmed l) : trimmed l = l := by
  have h1 : l.dropWhile isSpace = l := by
    rw [List.dropWhile_eq_self_iff]
    intro hl
    have := h.1 (l.get ⟨0, hl⟩) (by
      cases l with
      | nil => simp at hl
      | cons a as => simp)
    simpa using this
  unfold trimmed
  rw [h1, List.rdropWhile_eq_self_iff]
  intro hl
  have := h.2 (l.getLast hl) (List.getLast?_eq_getLast _ hl)
  simp [this]

theorem escapeChar_ne_nil (c : Char) : escapeChar c ≠ [] := by
  unfold escapeChar
  split_ifs <;> simp

theorem escapeChar_head (c : Char) (hc : isSpace c = false) :
    ∀ d, (escapeChar c).head? = some d → isSpace d = false := by
  intro d hd
  unfold escapeChar at hd
  split_ifs at hd <;> simp at hd <;> subst hd <;> first | exact hc | decide

theorem escapeChar_last (c : Char) (hc : isSpace c = false) :
    ∀ d, (escapeChar c).getLast? = some d → isSpace d = false := by
  intro d hd
  unfold escapeChar at hd
  split_ifs at hd <;> simp at hd <;> subst hd <;> first | exact hc | decide

theorem htmlEscape_append (a b : QString) :
    htmlEscape (a ++ b) = htmlEscape a ++ htmlEscape b := by
  induction a with
  | nil => simp [htmlEscape]
  | cons c cs ih => simp [htmlEscape, ih]

theorem htmlEscape_isTrimmed (l : QString) (h : Trimmed l) : Trimmed (htmlEscape l) := by
  constructor
  · cases l with
    | nil => simp [htmlEscape]
    | cons c cs =>
      intro d hd
      rw [htmlEscape, List.head?_append_of_ne_nil _ (escapeChar_ne_nil c)] at hd
      exact escapeChar_head c (h.1 c (by simp)) d hd
  · rcases List.eq_nil_or_concat l with rfl | ⟨as, c, rfl⟩
    · simp [htmlEscape]
    · intro d hd
      rw [List.concat_eq_append] at h hd
      rw [htmlEscape_append] at hd
      have h1 : htmlEscape [c] = escapeChar c := by simp [htmlEscape]
      rw [h1, List.getLast?_append_of_ne_nil _ (escapeChar_ne_nil c)] at hd
      exact escapeChar_last c (h.2 c (by simp)) d hd

theorem trimmed_htmlEscape_trimmed (s : QString) :
    trimmed (htmlEscape (trimmed s)) = htmlEscape (trimmed s) :=
  trimmed_of_isTrimmed _ (htmlEscape_isTrimmed _ (trimmed_isTrimmed s))


/-! ## Lemmas: the map -/

theorem lookup_removeEntries_self (l : List (QString × TReactComponent)) (k : QString) :
    lookupEntries (removeEntries l k) k = none := by
  induction l with
  | nil => rfl
  | cons e rest ih =>
    obtain ⟨k0, v0⟩ := e
    by_cases h : k0 = k
    · simp [removeEntries, h, ih]
    · simp [removeEntries, lookupEntries, h, ih]

theorem lookup_removeEntries_other (l : List (QString × TReactComponent)) (k k1 : QString)
    (hk : k1 ≠ k) : lookupEntries (removeEntries l k) k1 = lookupEntries l k1 := by
  induction l with
  | nil => rfl
  | cons e rest ih =>
    obtain ⟨k0, v0⟩ := e
    by_cases h : k0 = k
    · have h1 : k0 ≠ k1 := by
        intro h2
        exact hk (h2.symm.trans h)
      rw [removeEntries, if_pos h, ih, lookupEntries, if_neg h1]
    · rw [removeEntries, if_neg h, lookupEntries, lookupEntries, ih]

theorem QMap.value_remove_self (m : QMap) (k : QString) : (m.remove k).value k = none :=
  lookup_removeEntries_self m.entries k

theorem QMap.value_remove_other (m : QMap) (k k1 : QString) (hk : k1 ≠ k) :
    (m.remove k).value k1 = m.value k1 :=
  lookup_removeEntries_other m.entries k k1 hk

theorem QMap.value_insert_self (m : QMap) (k : QString) (v : TReactComponent) :
    (m.insert k v).value k = some v := by
  simp [QMap.insert, QMap.value, lookupEntries]

theorem QMap.value_insert_other (m : QMap) (k k1 : QString) (v : TReactComponent)
    (hk : k1 ≠ k) : (m.insert k v).value k1 = m.value k1 := by
  have h : k ≠ k1 := fun h => hk h.symm
  simp [QMap.insert, QMap.value, lookupEntries, h, lookup_removeEntries_other _ _ _ hk]

/-! ## Lemmas: the six execution paths of renderReact -/

theorem isStale_eq_true_iff (modified : QDateTime) (loaded : Nat) :
    isStale modified loaded = true ↔
      (modified = none ∨ ∃ t, modified = some t ∧ loaded < t) := by
  cases modified with
  | none => simp [isStale]
  | some t => simp [isStale]

theorem isStale_eq_false_iff (modified : QDateTime) (loaded : Nat) :
    isStale modified loaded = false ↔ ∃ t, modified = some t ∧ t ≤ loaded := by
  cases modified with
  | none => simp [isStale]
  | some t => simp [isStale]

theorem renderReact_empty (p : Platform) (w : World) (cache : QMap) :
    renderReact p w [] cache = ⟨[], cache, []⟩ := by
  simp [renderReact, renderReactBody]

theorem renderReact_hit (p : Platform) (w : World) (n : QString) (cache : QMap)
    (a : TReactComponent) (hn : n ≠ []) (hc : cache.value n = some a)
    (hf : isStale (w.lastModified a.filePath) a.loadedDateTime = false) :
    renderReact p w n cache =
      ⟨p.renderToString a n, cache,
        [Event.lock, Event.value n, Event.lastModified a.filePath, Event.unlock,
          Event.renderToString a n]⟩ := by
  cases n with
  | nil => exact absurd rfl hn
  | cons c cs =>
    simp [renderReact, renderReactBody, guardedLookup, Machine.lock, Machine.unlock,
      Machine.value, Machine.lastModified, Machine.emit, Machine.renderToString,
      Machine.destroyLocker, hc, hf]

theorem renderReact_miss_found (p : Platform) (w : World) (n : QString) (cache : QMap)
    (file : QString) (rest : List QString) (hn : n ≠ []) (hc : cache.value n = none)
    (hl : w.entryList (componentsPath p) (nameFilter n) = file :: rest) :
    renderReact p w n cache =
      ⟨p.renderToString ⟨componentFile p file, w.currentDateTime⟩ n,
        cache.insert n ⟨componentFile p file, w.currentDateTime⟩,
        [Event.lock, Event.value n, Event.unlock,
          Event.entryList (componentsPath p) (nameFilter n),
          Event.construct (componentFile p file), Event.lock,
          Event.insert n ⟨componentFile p file, w.currentDateTime⟩, Event.unlock,
          Event.renderToString ⟨componentFile p file, w.currentDateTime⟩ n]⟩ := by
  have hfile : file ≠ [] := w.entryList_ne _ _ file (by rw [hl]; simp)
  cases n with
  | nil => exact absurd rfl hn
  | cons c cs =>
    cases file with
    | nil => exact absurd rfl hfile
    | cons f fs =>
      simp [renderReact, renderReactBody, guardedLookup, discover, Machine.lock,
        Machine.unlock, Machine.value, Machine.emit, Machine.renderToString,
        Machine.destroyLocker, Machine.entryList, Machine.construct, Machine.insert, hc, hl]

theorem renderReact_miss_absent (p : Platform) (w : World) (n : QString) (cache : QMap)
    (hn : n ≠ []) (hc : cache.value n = none)
    (hl : w.entryList (componentsPath p) (nameFilter n) = []) :
    renderReact p w n cache =
      ⟨[], cache,
        [Event.lock, Event.value n, Event.unlock,
          Event.entryList (componentsPath p) (nameFilter n)]⟩ := by
  cases n with
  | nil => exact absurd rfl hn
  | cons c cs =>
    simp [renderReact, renderReactBody, guardedLookup, discover, Machine.lock,
      Machine.unlock, Machine.value, Machine.emit, Machine.destroyLocker,
      Machine.entryList, hc, hl]

theorem renderReact_stale_found (p : Platform) (w : World) (n : QString) (cache : QMap)
    (a : TReactComponent) (file : QString) (rest : List QString) (hn : n ≠ [])
    (hc : cache.value n = some a)
    (hs : isStale (w.lastModified a.filePath) a.loadedDateTime = true)
    (hl : w.entryList (componentsPath p) (nameFilter n) = file :: rest) :
    renderReact p w n cache =
      ⟨p.renderToString ⟨componentFile p file, w.currentDateTime⟩ n,
        (cache.remove n).insert n ⟨componentFile p file, w.currentDateTime⟩,
        [Event.lock, Event.value n, Event.lastModified a.filePath, Event.remove n,
          Event.delete a, Event.unlock,
          Event.entryList (componentsPath p) (nameFilter n),
          Event.construct (componentFile p file), Event.lock,
          Event.insert n ⟨componentFile p file, w.currentDateTime⟩, Event.unlock,
          Event.renderToString ⟨componentFile p file, w.currentDateTime⟩ n]⟩ := by
  have hfile : file ≠ [] := w.entryList_ne _ _ file (by rw [hl]; simp)
  cases n with
  | nil => exact absurd rfl hn
  | cons c cs =>
    cases file with
    | nil => exact absurd rfl hfile
    | cons f fs =>
      simp [renderReact, renderReactBody, guardedLookup, discover, Machine.lock,
        Machine.unlock, Machine.value, Machine.emit, Machine.renderToString,
        Machine.destroyLocker, Machine.entryList, Machine.construct, Machine.insert,
        Machine.lastModified, Machine.remove, Machine.delete, hc, hl, hs]

theorem renderReact_stale_absent (p : Platform) (w : World) (n : QString) (cache : QMap)
    (a : TReactComponent) (hn : n ≠ []) (hc : cache.value n = some a)
    (hs : isStale (w.lastModified a.filePath) a.loadedDateTime = true)
    (hl : w.entryList (componentsPath p) (nameFilter n) = []) :
    renderReact p w n cache =
      ⟨[], cache.remove n,
        [Event.lock, Event.value n, Event.lastModified a.filePath, Event.remove n,
          Event.delete a, Event.unlock,
          Event.entryList (componentsPath p) (nameFilter n)]⟩ := by
  cases n with
  | nil => exact absurd rfl hn
  | cons c cs =>
    simp [renderReact, renderReactBody, guardedLookup, discover, Machine.lock,
      Machine.unlock, Machine.value, Machine.emit, Machine.destroyLocker,
      Machine.entryList, Machine.lastModified, Machine.remove, Machine.delete, hc, hl, hs]


/-! ## Lemmas: repeated calls -/

theorem sum_map_eq_zero (l : List Outcome) (f : Outcome → Nat) (h : ∀ o ∈ l, f o = 0) :
    (l.map f).sum = 0 := by
  induction l with
  | nil => rfl
  | cons o os ih =>
    have h1 : f o = 0 := h o (by simp)
    have h2 : (os.map f).sum = 0 := ih (fun x hx => h x (by simp [hx]))
    simp [h1, h2]

theorem renderReact_first (p : Platform) (w : World) (n : QString) (cache : QMap)
    (hn : n ≠ []) (hfile : w.entryList (componentsPath p) (nameFilter n) ≠ []) :
    ∃ a, (renderReact p w n cache).reactComponents.value n = some a ∧
      (renderReact p w n cache).output = p.renderToString a n ∧
      builds (renderReact p w n cache).trace ≤ 1 ∧
      scans (renderReact p w n cache).trace ≤ 1 := by
  rcases hl : w.entryList (componentsPath p) (nameFilter n) with _ | ⟨file, rest⟩
  · exact absurd hl hfile
  · rcases hc : cache.value n with _ | a
    · rw [renderReact_miss_found p w n cache file rest hn hc hl]
      exact ⟨_, QMap.value_insert_self _ _ _, rfl, by simp [builds], by simp [scans]⟩
    · by_cases hs : isStale (w.lastModified a.filePath) a.loadedDateTime = true
      · rw [renderReact_stale_found p w n cache a file rest hn hc hs hl]
        exact ⟨_, QMap.value_insert_self _ _ _, rfl, by simp [builds], by simp [scans]⟩
      · have hf : isStale (w.lastModified a.filePath) a.loadedDateTime = false := by
          simpa using hs
        rw [renderReact_hit p w n cache a hn hc hf]
        exact ⟨a, hc, rfl, by simp [builds], by simp [scans]⟩

theorem renderReactSeq_hits (p : Platform) (n : QString) (a : TReactComponent) (hn : n ≠ [])
    (ws : List World) (cache : QMap) (hc : cache.value n = some a)
    (hf : ∀ w ∈ ws, ∃ t, w.lastModified a.filePath = some t ∧ t ≤ a.loadedDateTime) :
    ∀ o ∈ renderReactSeq p n ws cache,
      o.reactComponents = cache ∧ o.output = p.renderToString a n ∧
      builds o.trace = 0 ∧ scans o.trace = 0 := by
  induction ws with
  | nil =>
    intro o ho
    simp [renderReactSeq] at ho
  | cons w ws ih =>
    have hfw : isStale (w.lastModified a.filePath) a.loadedDateTime = false :=
      (isStale_eq_false_iff _ _).2 (hf w (by simp))
    have hcall := renderReact_hit p w n cache a hn hc hfw
    intro o ho
    rw [renderReactSeq, hcall] at ho
    rcases List.mem_cons.1 ho with rfl | ho
    · exact ⟨rfl, rfl, by simp [builds], by simp [scans]⟩
    · exact ih (fun x hx => hf x (by simp [hx])) o ho


/-! ## The claims -/

/-- Claim C1 (idempotent fresh hit): let `n` be a non-empty component name whose file is
listed at the first call, and let the modification time of the artifact cached after
that first call be resolvable and not newer than the artifact's load time at every later
call. Then over the whole sequence of calls `renderReact(n)` at most one artifact is
built and at most one directory scan is made (none after the first call), the map after
every call is the map the first call left, with one and the same artifact under `n`,
and every call returns the same output, that artifact's rendering of `n`. -/
theorem renderReact_idempotent_fresh_hit (p : Platform) (n : QString) (w0 : World)
    (ws : List World) (cache : QMap) (hn : n ≠ [])
    (hfile : w0.entryList (componentsPath p) (nameFilter n) ≠ [])
    (hfresh : ∀ a, (renderReact p w0 n cache).reactComponents.value n = some a →
      ∀ w ∈ ws, ∃ t, w.lastModified a.filePath = some t ∧ t ≤ a.loadedDateTime) :
    ∃ a,
      (∀ o ∈ renderReactSeq p n (w0 :: ws) cache,
        o.reactComponents = (renderReact p w0 n cache).reactComponents ∧
        o.reactComponents.value n = some a ∧
        o.output = p.renderToString a n) ∧
      ((renderReactSeq p n (w0 :: ws) cache).map (fun o => builds o.trace)).sum ≤ 1 ∧
      ((renderReactSeq p n (w0 :: ws) cache).map (fun o => scans o.trace)).sum ≤ 1 ∧
      (∀ o ∈ renderReactSeq p n ws (renderReact p w0 n cache).reactComponents,
        builds o.trace = 0 ∧ scans o.trace = 0) := by
  obtain ⟨a, ha, hout, hb, hsc⟩ := renderReact_first p w0 n cache hn hfile
  have hrest := renderReactSeq_hits p n a hn ws (renderReact p w0 n cache).reactComponents ha
    (hfresh a ha)
  refine ⟨a, ?_, ?_, ?_, ?_⟩
  · intro o ho
    rw [renderReactSeq] at ho
    rcases List.mem_cons.1 ho with rfl | ho
    · exact ⟨rfl, ha, hout⟩
    · obtain ⟨h1, h2, _, _⟩ := hrest o ho
      exact ⟨h1, by rw [h1]; exact ha, h2⟩
  · rw [renderReactSeq, List.map_cons, List.sum_cons,
      sum_map_eq_zero _ _ (fun o ho => (hrest o ho).2.2.1)]
    exact hb
  · rw [renderReactSeq, List.map_cons, List.sum_cons,
      sum_map_eq_zero _ _ (fun o ho => (hrest o ho).2.2.2)]
    exact hsc
  · intro o ho
    exact ⟨(hrest o ho).2.2.1, (hrest o ho).2.2.2⟩

/-- Claim C2 (invalidation): when the non-empty name `n` has the cached artifact `a`,
the modification time of `a`'s source is later than `a`'s load time and the listing for
`n.*` starts with `file`, the call removes the entry and deletes `a`, lists the
directory, builds exactly one artifact (from `file`, loaded now), publishes it under
`n`, and returns the rendering of that new artifact. -/
theorem renderReact_invalidation (p : Platform) (w : World) (n : QString) (cache : QMap)
    (a : TReactComponent) (t : Nat) (file : QString) (rest : List QString) (hn : n ≠ [])
    (hc : cache.value n = some a) (hm : w.lastModified a.filePath = some t)
    (ht : a.loadedDateTime < t)
    (hl : w.entryList (componentsPath p) (nameFilter n) = file :: rest) :
    (renderReact p w n cache).trace =
      [Event.lock, Event.value n, Event.lastModified a.filePath, Event.remove n,
        Event.delete a, Event.unlock,
        Event.entryList (componentsPath p) (nameFilter n),
        Event.construct (componentFile p file), Event.lock,
        Event.insert n ⟨componentFile p file, w.currentDateTime⟩, Event.unlock,
        Event.renderToString ⟨componentFile p file, w.currentDateTime⟩ n] ∧
    builds (renderReact p w n cache).trace = 1 ∧
    (renderReact p w n cache).reactComponents.value n =
      some ⟨componentFile p file, w.currentDateTime⟩ ∧
    (renderReact p w n cache).output =
      p.renderToString ⟨componentFile p file, w.currentDateTime⟩ n := by
  have hs : isStale (w.lastModified a.filePath) a.loadedDateTime = true :=
    (isStale_eq_true_iff _ _).2 (Or.inr ⟨t, hm, ht⟩)
  rw [renderReact_stale_found p w n cache a file rest hn hc hs hl]
  exact ⟨rfl, by simp [builds], QMap.value_insert_self _ _ _, rfl⟩

/-- Claim C4 (empty-name short-circuit): for every map and every world,
`renderReact("")` returns the empty string, leaves the map as it was and performs no
event at all: no lookup, no modification-time query, no listing, no construction. -/
theorem renderReact_empty_name (p : Platform) (w : World) (cache : QMap) :
    (renderReact p w [] cache).output = [] ∧
    (renderReact p w [] cache).reactComponents = cache ∧
    (renderReact p w [] cache).trace = [] := by
  rw [renderReact_empty]
  exact ⟨rfl, rfl, rfl⟩


/-- Claim C3 (absence), as the code has it: when the listing for `n.*` is empty and the
map holds no still-fresh entry for `n` (no entry, or an entry whose source has an
unresolvable modification time or one later than its load time), the call returns the
empty string, invokes no render capability and leaves `n` without entry; an entry that
is still fresh is rendered without the directory being consulted. -/
theorem renderReact_absence_without_fresh_entry (p : Platform) (w : World) (n : QString)
    (cache : QMap) (hl : w.entryList (componentsPath p) (nameFilter n) = []) :
    ((∀ a, cache.value n = some a →
        (w.lastModified a.filePath = none ∨
          ∃ t, w.lastModified a.filePath = some t ∧ a.loadedDateTime < t)) →
      (renderReact p w n cache).output = [] ∧
      renders (renderReact p w n cache).trace = 0 ∧
      (∀ r c, Event.renderToString r c ∉ (renderReact p w n cache).trace) ∧
      (n ≠ [] → (renderReact p w n cache).reactComponents.value n = none)) ∧
    (∀ a t, n ≠ [] → cache.value n = some a → w.lastModified a.filePath = some t →
      t ≤ a.loadedDateTime →
      (renderReact p w n cache).output = p.renderToString a n ∧
      scans (renderReact p w n cache).trace = 0 ∧
      Event.renderToString a n ∈ (renderReact p w n cache).trace) := by
  constructor
  · intro hnf
    by_cases hn : n = []
    · subst hn
      rw [renderReact_empty]
      exact ⟨rfl, rfl, by simp, fun h => absurd rfl h⟩
    · rcases hc : cache.value n with _ | a
      · rw [renderReact_miss_absent p w n cache hn hc hl]
        exact ⟨rfl, by simp [renders], by simp, fun _ => hc⟩
      · have hs : isStale (w.lastModified a.filePath) a.loadedDateTime = true :=
          (isStale_eq_true_iff _ _).2 (hnf a hc)
        rw [renderReact_stale_absent p w n cache a hn hc hs hl]
        exact ⟨rfl, by simp [renders], by simp, fun _ => QMap.value_remove_self _ _⟩
  · intro a t hn hc hm ht
    have hf : isStale (w.lastModified a.filePath) a.loadedDateTime = false :=
      (isStale_eq_false_iff _ _).2 ⟨t, hm, ht⟩
    rw [renderReact_hit p w n cache a hn hc hf]
    exact ⟨rfl, by simp [scans], by simp⟩

/-- Claim C5 (staleness decision): for a non-empty name `n` with cached artifact `a`,
the call removes the entry, deletes `a` and lists the directory exactly when the
modification time of `a`'s source is unresolvable or strictly later than `a`'s load
time. In that case `a` is no longer published afterwards: the map is the old map with
`n` removed when the listing is empty (the call returns the empty string), and the old
map with `n` removed and the newly built artifact inserted when a file is listed (the
call returns the new artifact's rendering); every other name is mapped as before.
Otherwise (so also when the two times are equal) the map is left as it was, `a` stays
published under `n` and the returned string is `a`'s rendering. -/
theorem renderReact_staleness_decision (p : Platform) (w : World) (n : QString)
    (cache : QMap) (a : TReactComponent) (hn : n ≠ []) (hc : cache.value n = some a) :
    (Event.remove n ∈ (renderReact p w n cache).trace ↔
      (w.lastModified a.filePath = none ∨
        ∃ t, w.lastModified a.filePath = some t ∧ a.loadedDateTime < t)) ∧
    (Event.delete a ∈ (renderReact p w n cache).trace ↔
      (w.lastModified a.filePath = none ∨
        ∃ t, w.lastModified a.filePath = some t ∧ a.loadedDateTime < t)) ∧
    (Event.entryList (componentsPath p) (nameFilter n) ∈ (renderReact p w n cache).trace ↔
      (w.lastModified a.filePath = none ∨
        ∃ t, w.lastModified a.filePath = some t ∧ a.loadedDateTime < t)) ∧
    ((∃ t, w.lastModified a.filePath = some t ∧ t ≤ a.loadedDateTime) →
      (renderReact p w n cache).reactComponents = cache ∧
      (renderReact p w n cache).reactComponents.value n = some a ∧
      (renderReact p w n cache).output = p.renderToString a n ∧
      Event.renderToString a n ∈ (renderReact p w n cache).trace) ∧
    (w.lastModified a.filePath = some a.loadedDateTime →
      (renderReact p w n cache).reactComponents.value n = some a ∧
      (renderReact p w n cache).output = p.renderToString a n) ∧
    ((w.lastModified a.filePath = none ∨
        ∃ t, w.lastModified a.filePath = some t ∧ a.loadedDateTime < t) →
      w.entryList (componentsPath p) (nameFilter n) = [] →
      (renderReact p w n cache).reactComponents = cache.remove n ∧
      (renderReact p w n cache).reactComponents.value n = none ∧
      (∀ k, k ≠ n → (renderReact p w n cache).reactComponents.value k = cache.value k) ∧
      (renderReact p w n cache).output = [] ∧
      renders (renderReact p w n cache).trace = 0) ∧
    (∀ file rest,
      (w.lastModified a.filePath = none ∨
        ∃ t, w.lastModified a.filePath = some t ∧ a.loadedDateTime < t) →
      w.entryList (componentsPath p) (nameFilter n) = file :: rest →
      (renderReact p w n cache).reactComponents =
        (cache.remove n).insert n ⟨componentFile p file, w.currentDateTime⟩ ∧
      (renderReact p w n cache).reactComponents.value n =
        some ⟨componentFile p file, w.currentDateTime⟩ ∧
      (∀ k, k ≠ n → (renderReact p w n cache).reactComponents.value k = cache.value k) ∧
      (renderReact p w n cache).output =
        p.renderToString ⟨componentFile p file, w.currentDateTime⟩ n ∧
      builds (renderReact p w n cache).trace = 1) := by
  by_cases hs : isStale (w.lastModified a.filePath) a.loadedDateTime = true
  · have hst := (isStale_eq_true_iff _ _).1 hs
    have hnotfresh : ¬ ∃ t, w.lastModified a.filePath = some t ∧ t ≤ a.loadedDateTime := by
      intro h
      have := (isStale_eq_false_iff _ _).2 h
      rw [hs] at this
      exact Bool.noConfusion this
    have hneq : w.lastModified a.filePath ≠ some a.loadedDateTime := by
      intro h
      exact hnotfresh ⟨_, h, le_refl _⟩
    rcases hl : w.entryList (componentsPath p) (nameFilter n) with _ | ⟨file, rest⟩
    · rw [renderReact_stale_absent p w n cache a hn hc hs hl]
      refine ⟨⟨fun _ => hst, fun _ => by simp⟩, ⟨fun _ => hst, fun _ => by simp⟩,
        ⟨fun _ => hst, fun _ => by simp⟩, fun h => absurd h hnotfresh,
        fun h => absurd h hneq, fun _ _ => ?_, fun file rest _ h => ?_⟩
      · exact ⟨rfl, QMap.value_remove_self _ _,
          fun k hk => QMap.value_remove_other _ _ _ hk, rfl, by simp [renders]⟩
      · exact absurd h (by simp)
    · rw [renderReact_stale_found p w n cache a file rest hn hc hs hl]
      refine ⟨⟨fun _ => hst, fun _ => by simp⟩, ⟨fun _ => hst, fun _ => by simp⟩,
        ⟨fun _ => hst, fun _ => by simp⟩, fun h => absurd h hnotfresh,
        fun h => absurd h hneq, fun _ h => absurd h (by simp), fun file1 rest1 _ h => ?_⟩
      have hfile : file = file1 := (List.cons.inj h).1
      subst hfile
      refine ⟨rfl, QMap.value_insert_self _ _ _, fun k hk => ?_, rfl, by simp [builds]⟩
      rw [QMap.value_insert_other _ _ _ _ hk, QMap.value_remove_other _ _ _ hk]
  · have hf : isStale (w.lastModified a.filePath) a.loadedDateTime = false := by
      simpa using hs
    have hnst : ¬ (w.lastModified a.filePath = none ∨
        ∃ t, w.lastModified a.filePath = some t ∧ a.loadedDateTime < t) := by
      intro h
      exact hs ((isStale_eq_true_iff _ _).2 h)
    rw [renderReact_hit p w n cache a hn hc hf]
    refine ⟨⟨fun h => ?_, fun h => absurd h hnst⟩, ⟨fun h => ?_, fun h => absurd h hnst⟩,
      ⟨fun h => ?_, fun h => absurd h hnst⟩, fun _ => ⟨rfl, hc, rfl, by simp⟩,
      fun _ => ⟨hc, rfl⟩, fun h => absurd h hnst, fun _ _ h => absurd h hnst⟩
    · simp at h
    · simp at h
    · simp at h

/-- Claim C6 (publish on miss): for a non-empty name `n` with no valid cached entry
(none, or one that is stale and so evicted by this call), when the listing for `n.*`
starts with `file`, the call builds exactly one artifact, from the path
components directory + separator + `file` and loaded now; afterwards the map holds
exactly that artifact under `n` and maps every other name as before, and the returned
string is that artifact's rendering of `n`. -/
theorem renderReact_publish_on_miss (p : Platform) (w : World) (n : QString) (cache : QMap)
    (file : QString) (rest : List QString) (hn : n ≠ [])
    (hmiss : ∀ a, cache.value n = some a →
      (w.lastModified a.filePath = none ∨
        ∃ t, w.lastModified a.filePath = some t ∧ a.loadedDateTime < t))
    (hl : w.entryList (componentsPath p) (nameFilter n) = file :: rest) :
    builds (renderReact p w n cache).trace = 1 ∧
    Event.construct (p.absolutePath (componentsPath p) ++ [p.separator] ++ file) ∈
      (renderReact p w n cache).trace ∧
    (renderReact p w n cache).reactComponents.value n =
      some ⟨p.absolutePath (componentsPath p) ++ [p.separator] ++ file, w.currentDateTime⟩ ∧
    (∀ k, k ≠ n → (renderReact p w n cache).reactComponents.value k = cache.value k) ∧
    (renderReact p w n cache).output =
      p.renderToString
        ⟨p.absolutePath (componentsPath p) ++ [p.separator] ++ file, w.currentDateTime⟩ n ∧
    Event.renderToString
        ⟨p.absolutePath (componentsPath p) ++ [p.separator] ++ file, w.currentDateTime⟩ n ∈
      (renderReact p w n cache).trace := by
  rcases hc : cache.value n with _ | a
  · rw [renderReact_miss_found p w n cache file rest hn hc hl]
    refine ⟨by simp [builds], by simp [componentFile], QMap.value_insert_self _ _ _,
      fun k hk => QMap.value_insert_other _ _ _ _ hk, rfl, by simp [componentFile]⟩
  · have hs : isStale (w.lastModified a.filePath) a.loadedDateTime = true :=
      (isStale_eq_true_iff _ _).2 (hmiss a hc)
    rw [renderReact_stale_found p w n cache a file rest hn hc hs hl]
    refine ⟨by simp [builds], by simp [componentFile], QMap.value_insert_self _ _ _,
      fun k hk => ?_, rfl, by simp [componentFile]⟩
    rw [QMap.value_insert_other _ _ _ _ hk, QMap.value_remove_other _ _ _ hk]

/-- Claim C10 (guard discipline): on every execution path of one call, the trace is
accepted by the guard monitor: every lookup, removal and insertion on the map happens
with the mutex held, the directory listing, the artifact construction and the render
invocation happen with the mutex free, and the mutex is free when the call returns. -/
theorem renderReact_guard_discipline (p : Platform) (w : World) (n : QString)
    (cache : QMap) : disciplined (renderReact p w n cache).trace = true := by
  by_cases hn : n = []
  · subst hn
    rw [renderReact_empty]
    rfl
  · rcases hl : w.entryList (componentsPath p) (nameFilter n) with _ | ⟨file, rest⟩
    · rcases hc : cache.value n with _ | a
      · rw [renderReact_miss_absent p w n cache hn hc hl]
        rfl
      · by_cases hs : isStale (w.lastModified a.filePath) a.loadedDateTime = true
        · rw [renderReact_stale_absent p w n cache a hn hc hs hl]
          rfl
        · rw [renderReact_hit p w n cache a hn hc (by simpa using hs)]
          rfl
    · rcases hc : cache.value n with _ | a
      · rw [renderReact_miss_found p w n cache file rest hn hc hl]
        rfl
      · by_cases hs : isStale (w.lastModified a.filePath) a.loadedDateTime = true
        · rw [renderReact_stale_found p w n cache a file rest hn hc hs hl]
          rfl
        · rw [renderReact_hit p w n cache a hn hc (by simpa using hs)]
          rfl


/-- The name `renderPartial` hands to the controller on every platform: `partial`,
the native directory separator and `t` when `t` contains no `/`, and `t` itself when it
contains `/`; the empty string is returned when no controller is attached. Where the
native separator is `/` the rewritten name is `partial/` followed by `t`. -/
theorem renderPartial_native_separator (p : Platform) (v : View) (t : QString)
    (vars : QVariantMap) :
    (v.actionController = none → renderPartial p v t vars = []) ∧
    (∀ c, v.actionController = some c → '/' ∉ t →
      renderPartial p v t vars =
        c.getRenderingData ("partial".toList ++ [p.separator] ++ t) vars) ∧
    (∀ c, v.actionController = some c → '/' ∈ t →
      renderPartial p v t vars = c.getRenderingData t vars) ∧
    (∀ c, p.separator = '/' → v.actionController = some c → '/' ∉ t →
      renderPartial p v t vars = c.getRenderingData ("partial/".toList ++ t) vars) := by
  refine ⟨fun h => ?_, fun c h ht => ?_, fun c h ht => ?_, fun c hp h ht => ?_⟩
  · simp [renderPartial, h]
  · simp [renderPartial, h, ht]
  · simp [renderPartial, h, ht]
  · simp [renderPartial, h, ht, hp]

/-- Claim C9 (echo and escaped echo): `echo(text)` returns the empty string and leaves
the buffer equal to the earlier buffer followed by the trimmed raw text; `eh(text)`
returns the empty string and leaves the buffer equal to the earlier buffer followed by
the HTML-escaped form of the trimmed text; for the text `<b>` the appended texts are
`<b>` and `&lt;b&gt;`. -/
theorem echo_and_eh_append (v : View) (text : QString) :
    (echo v text).1 = [] ∧
    (echo v text).2.responsebody = v.responsebody ++ trimmed text ∧
    (eh v text).1 = [] ∧
    (eh v text).2.responsebody = v.responsebody ++ htmlEscape (trimmed text) ∧
    (echo v "<b>".toList).2.responsebody = v.responsebody ++ "<b>".toList ∧
    (eh v "<b>".toList).2.responsebody = v.responsebody ++ "&lt;b&gt;".toList := by
  refine ⟨rfl, rfl, rfl, ?_, ?_, ?_⟩
  · simp [eh, echoQString, trimmed_htmlEscape_trimmed]
  · have h : trimmed "<b>".toList = "<b>".toList := by decide
    simp only [echo, h]
  · have h : trimmed "<b>".toList = "<b>".toList := by decide
    have h2 : htmlEscape "<b>".toList = "&lt;b&gt;".toList := by decide
    simp only [eh, echoQString, h, h2]
    have h3 : trimmed "&lt;b&gt;".toList = "&lt;b&gt;".toList := by decide
    rw [h3]

/-! ## Evaluation points -/

/-- Witness for C1: three calls `renderReact("Hello")` on an initially empty map, the
file `Hello.js` listed, its modification time 5 and the clock at 10, 20, 20. -/
theorem renderReact_idempotent_fresh_hit_witness :
    hello ≠ [] ∧
    ∃ a,
      (∀ o ∈ renderReactSeq unixPlatform hello
          (mkWorld (some 5) ["Hello.js".toList] 10 ::
            [mkWorld (some 5) ["Hello.js".toList] 20, mkWorld (some 5) ["Hello.js".toList] 20])
          ⟨[]⟩,
        o.reactComponents =
          (renderReact unixPlatform (mkWorld (some 5) ["Hello.js".toList] 10) hello
            ⟨[]⟩).reactComponents ∧
        o.reactComponents.value hello = some a ∧
        o.output = unixPlatform.renderToString a hello) ∧
      ((renderReactSeq unixPlatform hello
          (mkWorld (some 5) ["Hello.js".toList] 10 ::
            [mkWorld (some 5) ["Hello.js".toList] 20, mkWorld (some 5) ["Hello.js".toList] 20])
          ⟨[]⟩).map (fun o => builds o.trace)).sum ≤ 1 ∧
      ((renderReactSeq unixPlatform hello
          (mkWorld (some 5) ["Hello.js".toList] 10 ::
            [mkWorld (some 5) ["Hello.js".toList] 20, mkWorld (some 5) ["Hello.js".toList] 20])
          ⟨[]⟩).map (fun o => scans o.trace)).sum ≤ 1 ∧
      (∀ o ∈ renderReactSeq unixPlatform hello
          [mkWorld (some 5) ["Hello.js".toList] 20, mkWorld (some 5) ["Hello.js".toList] 20]
          (renderReact unixPlatform (mkWorld (some 5) ["Hello.js".toList] 10) hello
            ⟨[]⟩).reactComponents,
        builds o.trace = 0 ∧ scans o.trace = 0) :=
  ⟨by decide,
    renderReact_idempotent_fresh_hit unixPlatform hello
      (mkWorld (some 5) ["Hello.js".toList] 10)
      [mkWorld (some 5) ["Hello.js".toList] 20, mkWorld (some 5) ["Hello.js".toList] 20]
      ⟨[]⟩ (by decide) (by decide) (by
        intro a ha w hw
        have h0 : (renderReact unixPlatform (mkWorld (some 5) ["Hello.js".toList] 10) hello
            ⟨[]⟩).reactComponents.value hello = some helloArtifact := by decide
        rw [h0] at ha
        cases ha
        simp only [List.mem_cons, List.mem_singleton, or_self, List.not_mem_nil, or_false]
          at hw
        subst hw
        exact ⟨5, rfl, by decide⟩)⟩

/-- Witness for C2: `Hello` is cached from clock reading 10, its source now has
modification time 15, the clock reads 20: the call publishes the artifact loaded at 20. -/
theorem renderReact_invalidation_witness :
    helloCache.value hello = some helloArtifact ∧
    (renderReact unixPlatform (mkWorld (some 15) ["Hello.js".toList] 20) hello
      helloCache).reactComponents.value hello = some ⟨helloPath, 20⟩ ∧
    builds (renderReact unixPlatform (mkWorld (some 15) ["Hello.js".toList] 20) hello
      helloCache).trace = 1 :=
  ⟨by decide,
    (renderReact_invalidation unixPlatform (mkWorld (some 15) ["Hello.js".toList] 20) hello
      helloCache helloArtifact 15 "Hello.js".toList [] (by decide) (by decide) rfl
      (by decide) (by decide)).2.2.1,
    (renderReact_invalidation unixPlatform (mkWorld (some 15) ["Hello.js".toList] 20) hello
      helloCache helloArtifact 15 "Hello.js".toList [] (by decide) (by decide) rfl
      (by decide) (by decide)).2.1⟩

/-- Counterexample to C3 as stated: after `Hello` was loaded at clock reading 10, the
listing for `Hello.*` is empty while the cached source path still answers a
modification time (5) not later than the load time; the call does not return the empty
string and does invoke the render capability of the cached artifact. -/
theorem renderReact_absence_counterexample :
    (mkWorld (some 5) [] 20).entryList (componentsPath unixPlatform) (nameFilter hello) = [] ∧
    (renderReact unixPlatform (mkWorld (some 5) [] 20) hello helloCache).output ≠ [] ∧
    Event.renderToString helloArtifact hello ∈
      (renderReact unixPlatform (mkWorld (some 5) [] 20) hello helloCache).trace := by
  decide

/-- Witness for C3 as amended: the listing is empty and the cached source has no
resolvable modification time any more; the call returns the empty string. -/
theorem renderReact_absence_without_fresh_entry_witness :
    (mkWorld none [] 20).entryList (componentsPath unixPlatform) (nameFilter hello) = [] ∧
    (renderReact unixPlatform (mkWorld none [] 20) hello helloCache).output = [] ∧
    renders (renderReact unixPlatform (mkWorld none [] 20) hello helloCache).trace = 0 :=
  ⟨rfl,
    ((renderReact_absence_without_fresh_entry unixPlatform (mkWorld none [] 20) hello
      helloCache rfl).1 (fun _ _ => Or.inl rfl)).1,
    ((renderReact_absence_without_fresh_entry unixPlatform (mkWorld none [] 20) hello
      helloCache rfl).1 (fun _ _ => Or.inl rfl)).2.1⟩

/-- Witness for C5: with `Hello` cached from clock reading 10, a modification time
equal to the load time keeps the entry and renders it; an unresolvable modification
time with an empty listing leaves `Hello` without entry. -/
theorem renderReact_staleness_decision_witness :
    hello ≠ [] ∧ helloCache.value hello = some helloArtifact ∧
    ((renderReact unixPlatform (mkWorld (some 10) ["Hello.js".toList] 20) hello
        helloCache).reactComponents.value hello = some helloArtifact ∧
      (renderReact unixPlatform (mkWorld (some 10) ["Hello.js".toList] 20) hello
        helloCache).output = unixPlatform.renderToString helloArtifact hello) ∧
    (renderReact unixPlatform (mkWorld none [] 20) hello
      helloCache).reactComponents.value hello = none :=
  ⟨by decide, by decide,
    (renderReact_staleness_decision unixPlatform (mkWorld (some 10) ["Hello.js".toList] 20)
      hello helloCache helloArtifact (by decide) (by decide)).2.2.2.2.1 rfl,
    ((renderReact_staleness_decision unixPlatform (mkWorld none [] 20)
      hello helloCache helloArtifact (by decide) (by decide)).2.2.2.2.2.1
        (Or.inl rfl) rfl).2.1⟩

/-- Witness for C6: on an empty map with `Hello.js` listed and the clock at 10, the call
publishes the artifact built from the components directory, separator and `Hello.js`. -/
theorem renderReact_publish_on_miss_witness :
    hello ≠ [] ∧
    (renderReact unixPlatform (mkWorld (some 5) ["Hello.js".toList] 10) hello
      ⟨[]⟩).reactComponents.value hello =
      some ⟨unixPlatform.absolutePath (componentsPath unixPlatform) ++
        [unixPlatform.separator] ++ "Hello.js".toList, 10⟩ :=
  ⟨by decide,
    (renderReact_publish_on_miss unixPlatform (mkWorld (some 5) ["Hello.js".toList] 10) hello
      ⟨[]⟩ "Hello.js".toList [] (by decide)
      (fun a ha => by
        have h0 : (⟨[]⟩ : QMap).value hello = none := rfl
        rw [h0] at ha
        cases ha)
      (by decide)).2.2.1⟩

/-- Claim C8 (partial-template path convention) at the input where the code departs
from it: on a platform whose native separator is the backslash, with a controller
attached, the name `menu` contains no `/` yet the controller is not asked for
`partial/menu` but for `partial`, backslash, `menu`. That name still contains no `/`,
so it fails the function's own test of line 47 and would be prefixed once more, while
on a platform with separator `/` the rewritten name passes the test and is left alone. -/
theorem renderPartial_backslash_separator :
    '/' ∉ "menu".toList ∧
    renderPartial windowsPlatform ⟨some nameController, []⟩ "menu".toList [] ≠
      nameController.getRenderingData ("partial/".toList ++ "menu".toList) [] ∧
    renderPartial windowsPlatform ⟨some nameController, []⟩ "menu".toList [] =
      "partial".toList ++ [Char.ofNat 92] ++ "menu".toList ∧
    '/' ∉ renderPartial windowsPlatform ⟨some nameController, []⟩ "menu".toList [] ∧
    renderPartial windowsPlatform ⟨some nameController, []⟩
        (renderPartial windowsPlatform ⟨some nameController, []⟩ "menu".toList []) [] ≠
      renderPartial windowsPlatform ⟨some nameController, []⟩ "menu".toList [] ∧
    renderPartial unixPlatform ⟨some nameController, []⟩ "menu".toList [] =
      "partial/menu".toList ∧
    renderPartial unixPlatform ⟨some nameController, []⟩
        (renderPartial unixPlatform ⟨some nameController, []⟩ "menu".toList []) [] =
      renderPartial unixPlatform ⟨some nameController, []⟩ "menu".toList [] := by
  decide

/-! ## Lemmas and claim: concurrent calls -/

/-- A call that runs its phases back to back in one world is the sequential call. -/
theorem stepCall_sequential (p : Platform) (w : World) (component : QString) (m : Machine) :
    stepCall p w component
      (stepCall p w component
        (stepCall p w component Progress.entered m).1
        (stepCall p w component Progress.entered m).2).1
      (stepCall p w component
        (stepCall p w component Progress.entered m).1
        (stepCall p w component Progress.entered m).2).2 =
    (Progress.returned (renderReactBody p w component m).1,
      (renderReactBody p w component m).2) := by
  cases component with
  | nil => simp [stepCall, renderReactBody]
  | cons c cs =>
    rcases hg : guardedLookup w (c :: cs) m with ⟨react, m1⟩
    cases react with
    | some r => simp [stepCall, renderReactBody, hg]
    | none =>
      rcases hd : discover p w (c :: cs) m1 with ⟨react2, m2⟩
      cases react2 with
      | some r => simp [stepCall, renderReactBody, hg, hd]
      | none => simp [stepCall, renderReactBody, hg, hd]

/-- While the file stays as it was, the interleaving of the stampede schedule deletes
nothing: both calls return the rendering of the one artifact, which stays published. -/
theorem calm_stampede :
    (System.run unixPlatform hello
      ⟨⟨⟨[]⟩, false, []⟩, [Progress.entered, Progress.entered]⟩ calmSchedule).calls =
      [Progress.returned (unixPlatform.renderToString helloArtifact hello),
        Progress.returned (unixPlatform.renderToString helloArtifact hello)] ∧
    rendersDeleted [] (System.run unixPlatform hello
      ⟨⟨⟨[]⟩, false, []⟩, [Progress.entered, Progress.entered]⟩ calmSchedule).shared.trace
      = false ∧
    (System.run unixPlatform hello
      ⟨⟨⟨[]⟩, false, []⟩, [Progress.entered, Progress.entered]⟩
      calmSchedule).shared.reactComponents.value hello = some helloArtifact := by
  decide

/-- Claim C7 (concurrent stampede) at the input where the code departs from it: two
threads call `renderReact("Hello")` at once on an empty map, `Hello.js` exists
throughout and is saved again meanwhile. Both calls return and the merged trace keeps
the guard discipline, with one artifact (the one loaded at 20) published at the end; but
thread 1 deletes the artifact loaded at 10 (line 74) while thread 0 still holds the
pointer, and thread 0's `renderToString` (line 94) runs on the deleted artifact: the
string thread 0 receives is not the output of a live artifact. -/
theorem renderReact_stampede_renders_deleted :
    stampede.calls =
      [Progress.returned (unixPlatform.renderToString helloArtifact hello),
        Progress.returned (unixPlatform.renderToString ⟨helloPath, 20⟩ hello)] ∧
    disciplined stampede.shared.trace = true ∧
    stampede.shared.reactComponents.value hello = some ⟨helloPath, 20⟩ ∧
    rendersDeleted [] stampede.shared.trace = true ∧
    stampede.shared.trace.drop 12 =
      [Event.delete helloArtifact, Event.unlock, Event.renderToString helloArtifact hello,
        Event.entryList (componentsPath unixPlatform) (nameFilter hello),
        Event.construct helloPath, Event.lock, Event.insert hello ⟨helloPath, 20⟩,
        Event.unlock, Event.renderToString ⟨helloPath, 20⟩ hello] := by
  decide

end TActionView
